import Mathlib

/-!
# MADN-X: verification of the reasoning-aggregation core against its specification

The repository ships the frontend (Next.js pages and a case form) in source
form; the backend aggregation core (Consensus Engine, Safety Reviewer,
Explainability Engine, Audit Ledger, Calibration Tracker) is described by the
specification but its code is not part of the checked-in sources.  The
definitions below therefore come in two groups:

* backend components are modelled from the specification (their doc comments
  start with `Modelled from the spec:`), with confidences and probabilities
  embedded as rationals;
* frontend functions (`mkDiagnosePayload` from `handleSubmit`, `ConfidenceBar`)
  are shallow embeddings of the TypeScript source.
-/

namespace MADNX

/-- Modelled from the spec: diagnostic certainty, one of suspected, likely or
confirmed (§3, glossary). -/
inductive Certainty
  | suspected
  | likely
  | confirmed
deriving DecidableEq

/-- Modelled from the spec: one specialist's independent assessment (§3).
Findings and flags are not needed by any claim and are omitted; the evidence
weights they induce are abstracted into `MergeParams`. -/
structure AgentOutput where
  agent_id : String
  diagnoses : List (String × ℚ)
  top_diagnosis : String
  confidence : ℚ
  is_definitive : Bool
  certainty : Certainty
deriving DecidableEq

/-- Modelled from the spec: the consensus output record (§3). -/
structure ConsensusResult where
  diagnoses : List (String × ℚ)
  top_diagnosis : String
  confidence : ℚ
  certainty : Certainty
  override_agent : Option String
  agreement_score : ℚ
deriving DecidableEq

/-- Modelled from the spec: the specialty-relevance and evidence-weight factors
of the weighted merge are configurable parameters (§4.2, §9 open question);
both are indexed by agent identifier and diagnosis name. -/
structure MergeParams where
  rel : String → String → ℚ
  evw : String → String → ℚ

/-- Modelled from the spec: fixed specialist-priority order used for
tie-breaking, imaging first, then the electrical-activity specialist, then
others (§4.2). Smaller number means higher priority. -/
def specPriority (agent_id : String) : ℕ :=
  if agent_id = "radiologist" then 0
  else if agent_id = "cardiologist" then 1
  else 2

/-- Modelled from the spec: of two definitive agents prefer the one with the
higher confidence, tie-break by specialist priority (§4.2). -/
def betterDefinitive (a b : AgentOutput) : AgentOutput :=
  if a.confidence < b.confidence then b
  else if a.confidence = b.confidence ∧ specPriority b.agent_id < specPriority a.agent_id then b
  else a

/-- Modelled from the spec: the definitive agent selected for the override
rule, if any agent reports a definitive finding (§4.2). -/
def chooseDefinitive (agents : List AgentOutput) : Option AgentOutput :=
  match agents.filter (fun a => a.is_definitive) with
  | [] => none
  | a :: rest => some (rest.foldl betterDefinitive a)

/-- Modelled from the spec: merge weight of an agent for a diagnosis, the
specialty relevance times the evidence-weight factor (§4.2). -/
def mergeWeight (P : MergeParams) (a : AgentOutput) (d : String) : ℚ :=
  P.rel a.agent_id d * P.evw a.agent_id d

/-- Modelled from the spec: the (weight, probability) contributions to a
diagnosis, one per agent whose diagnoses map mentions it; an agent without the
diagnosis contributes nothing rather than a zero probability (§4.2, §5). -/
def contributions (P : MergeParams) (agents : List AgentOutput) (d : String) :
    List (ℚ × ℚ) :=
  agents.filterMap (fun a => (a.diagnoses.lookup d).map (fun p => (mergeWeight P a d, p)))

/-- Modelled from the spec: weighted average of the agents' probabilities for
one diagnosis (§4.2). -/
def scoreFor (P : MergeParams) (agents : List AgentOutput) (d : String) : ℚ :=
  let c := contributions P agents d
  let tw := (c.map Prod.fst).sum
  if tw = 0 then 0 else (c.map (fun wp => wp.1 * wp.2)).sum / tw

/-- Modelled from the spec: every diagnosis name appearing in any agent's
diagnoses map (§4.2). -/
def allNames (agents : List AgentOutput) : List String :=
  ((agents.map (fun a => a.diagnoses.map Prod.fst)).flatten).dedup

/-- Modelled from the spec: the per-diagnosis weighted scores, renormalized
only if the raw sum exceeds 1 (§4.2). -/
def normalizedScores (P : MergeParams) (agents : List AgentOutput) :
    List (String × ℚ) :=
  let raw := (allNames agents).map (fun d => (d, scoreFor P agents d))
  let total := (raw.map Prod.snd).sum
  if 1 < total then raw.map (fun ds => (ds.1, ds.2 / total)) else raw

/-- Modelled from the spec: priority of the top contributor to a diagnosis,
the agent with the greatest weighted contribution (§4.2 tie-break). -/
def topContribPriority (P : MergeParams) (agents : List AgentOutput) (d : String) : ℕ :=
  let cs := agents.filterMap
    (fun a => (a.diagnoses.lookup d).map (fun p => (mergeWeight P a d * p, specPriority a.agent_id)))
  (cs.foldl (fun best x => if best.1 < x.1 then x else best) ((0 : ℚ), 99)).2

/-- Modelled from the spec: argmax over the scored diagnoses, ties broken by
the specialist priority of the top contributor (§4.2). -/
def pickTop (P : MergeParams) (agents : List AgentOutput)
    (scored : List (String × ℚ)) : Option (String × ℚ) :=
  scored.foldl
    (fun best x =>
      match best with
      | none => some x
      | some b =>
        if b.2 < x.2 ∨ (b.2 = x.2 ∧ topContribPriority P agents x.1 < topContribPriority P agents b.1)
        then some x else some b)
    none

/-- Modelled from the spec: fraction of agents whose individual top diagnosis
equals the final top diagnosis (§4.2, glossary). -/
def matchFraction (agents : List AgentOutput) (top : String) : ℚ :=
  ((agents.countP (fun a => a.top_diagnosis == top) : ℚ)) / ((agents.length : ℚ))

/-- Modelled from the spec: the agreement score, the fraction of agents whose
top diagnosis matches the final one, 1.0 if only one agent is present (§4.2). -/
def agreementScore (agents : List AgentOutput) (top : String) : ℚ :=
  if agents.length = 1 then 1 else matchFraction agents top

/-- Modelled from the spec: the Consensus Engine's merge (§4.2) — the
definitive-override rule when some agent is definitive, otherwise the weighted
merge with renormalization, certainty derivation and agreement scoring.  A
deterministic total function of the agent outputs and the merge parameters. -/
def merge (P : MergeParams) (agents : List AgentOutput) : ConsensusResult :=
  match chooseDefinitive agents with
  | some a =>
    { diagnoses := [(a.top_diagnosis, a.confidence)]
      top_diagnosis := a.top_diagnosis
      confidence := a.confidence
      certainty := Certainty.confirmed
      override_agent := some a.agent_id
      agreement_score := agreementScore agents a.top_diagnosis }
  | none =>
    let scored := normalizedScores P agents
    match pickTop P agents scored with
    | none =>
      { diagnoses := []
        top_diagnosis := "Unknown"
        confidence := 0
        certainty := Certainty.suspected
        override_agent := none
        agreement_score := agreementScore agents "Unknown" }
    | some ds =>
      { diagnoses := scored
        top_diagnosis := ds.1
        confidence := ds.2
        certainty := if 3/5 ≤ ds.2 then Certainty.likely else Certainty.suspected
        override_agent := none
        agreement_score := agreementScore agents ds.1 }

/-- Modelled from the spec: a concrete parameter instance (all relevance and
evidence weights 1) used to evaluate the model on concrete inputs. -/
def defaultParams : MergeParams := ⟨fun _ _ => 1, fun _ _ => 1⟩

/-- Modelled from the spec: a calibration record, mutated exactly once when
ground truth arrives (§3). Case identifiers are embedded as naturals. -/
structure CalibrationRecord where
  case_id : ℕ
  predicted_confidence : ℚ
  predicted_diagnosis : String
  actual_outcome : Option Bool
deriving DecidableEq

/-- Modelled from the spec: the Safety Reviewer's report (§3); the adjusted
confidence and certainty carry the possibly-downgraded values. -/
structure SafetyReport where
  critical_flags : List String
  contradiction : Bool
  calibration_warning : Option String
  adjusted_confidence : ℚ
  adjusted_certainty : Certainty
deriving DecidableEq

/-- Modelled from the spec: the fixed contradiction threshold, default 0.5
(§4.3). -/
def contradictionThreshold : ℚ := 1/2

/-- Modelled from the spec: the fixed safety ceiling, default 0.6 (§4.3). -/
def safetyCeiling : ℚ := 3/5

/-- Modelled from the spec: merged-probability threshold for flagging critical
conditions, default 0.3 (§4.3). -/
def criticalProbThreshold : ℚ := 3/10

/-- Modelled from the spec: calibration discrepancy tolerance, default 0.15
(§4.3). -/
def calibTolerance : ℚ := 3/20

/-- Modelled from the spec: minimum bucket sample size the Safety Reviewer
trusts (§4.3). -/
def minSamples : ℕ := 10

/-- Modelled from the spec: the fixed critical-condition set (§4.3; the
README's critical list). -/
def criticalConditions : List String :=
  ["Pulmonary Embolism", "STEMI", "Cardiac Tamponade", "Tension Pneumothorax", "Septic Shock"]

/-- Modelled from the spec: downgrading diagnostic certainty one level (§4.3). -/
def downgrade : Certainty → Certainty
  | Certainty.confirmed => Certainty.likely
  | Certainty.likely => Certainty.suspected
  | Certainty.suspected => Certainty.suspected

/-- Modelled from the spec: bucket accuracy over width-0.1 confidence buckets —
the mean recorded outcome over records with ground truth in the bucket of the
given confidence, plus the sample count (§4.6). -/
def bucketAccuracy (tracker : List CalibrationRecord) (conf : ℚ) : ℚ × ℕ :=
  let inB := tracker.filter
    (fun r => r.actual_outcome.isSome && decide (⌊r.predicted_confidence * 10⌋ = ⌊conf * 10⌋))
  let good := inB.countP (fun r => r.actual_outcome == some true)
  (if inB.length = 0 then 0 else ((good : ℚ)) / ((inB.length : ℚ)), inB.length)

/-- Modelled from the spec: the Safety Reviewer's review (§4.3) — critical
detection, the contradiction check with its override exemption and safety
ceiling, and the calibration annotation (which never changes the number). -/
def review (r : ConsensusResult) (agents : List AgentOutput)
    (tracker : List CalibrationRecord) : SafetyReport :=
  let contra := r.agreement_score < contradictionThreshold ∧ r.override_agent = none
  let flags := ((if r.top_diagnosis ∈ criticalConditions then [r.top_diagnosis] else []) ++
    (r.diagnoses.filter
      (fun dp => decide (criticalProbThreshold < dp.2) && decide (dp.1 ∈ criticalConditions))).map
      Prod.fst).dedup
  let accN := bucketAccuracy tracker r.confidence
  { critical_flags := flags
    contradiction := decide contra
    calibration_warning :=
      if minSamples ≤ accN.2 ∧ calibTolerance < |accN.1 - r.confidence| then
        some "calibration discrepancy" else none
    adjusted_confidence := if contra then min r.confidence safetyCeiling else r.confidence
    adjusted_certainty :=
      if contra ∧ safetyCeiling < r.confidence then downgrade r.certainty else r.certainty }

/-- Modelled from the spec: error conditions of ground-truth submission (§6,
§7). -/
inductive CalibError
  | NotFound
  | AlreadyRecorded
deriving DecidableEq

/-- Modelled from the spec: rebuilding a successful tail result by re-attaching
the untouched head record (helper for `record_outcome`). -/
def consOk (r : CalibrationRecord) :
    Except CalibError (List CalibrationRecord) → Except CalibError (List CalibrationRecord)
  | Except.error e => Except.error e
  | Except.ok rs => Except.ok (r :: rs)

/-- Modelled from the spec: `record_outcome` mutates exactly the one record
matching the case identifier, failing with `NotFound` if the case was never
recorded and `AlreadyRecorded` if its outcome is already set — no silent
overwrite (§4.6, §6). -/
def record_outcome : List CalibrationRecord → ℕ → Bool → Except CalibError (List CalibrationRecord)
  | [], _, _ => Except.error CalibError.NotFound
  | r :: rs, c, o =>
    if r.case_id = c then
      match r.actual_outcome with
      | some _ => Except.error CalibError.AlreadyRecorded
      | none => Except.ok ({ r with actual_outcome := some o } :: rs)
    else consOk r (record_outcome rs c o)

/-- Modelled from the spec: the per-record effect of a ground-truth update —
set the outcome on the matching record, leave every other record unchanged
(§4.6). -/
def setOutcome (c : ℕ) (o : Bool) (r : CalibrationRecord) : CalibrationRecord :=
  if r.case_id = c then { r with actual_outcome := some o } else r

/-- Modelled from the spec: the action recorded in a reasoning step (§3). -/
inductive StepAction
  | contributed
  | confirmed
  | overridden
  | flagged
deriving DecidableEq

/-- Modelled from the spec: one step of the reasoning chain (§3). -/
structure ReasoningStep where
  step_number : ℕ
  agent : String
  action : StepAction
  description : String
  evidence_used : List String
  conclusion : String
  confidence_delta : ℚ
deriving DecidableEq

/-- Modelled from the spec: the baseline prior of the reasoning chain, fixed
at 0 (§3 invariant). -/
def baselinePrior : ℚ := 0

/-- Modelled from the spec: the merged confidence over the first `i` agent
outputs, used to compute each agent's marginal contribution to the final
score (§4.4). -/
def confUpTo (P : MergeParams) (agents : List AgentOutput) (i : ℕ) : ℚ :=
  (merge P (agents.take i)).confidence

/-- Modelled from the spec: the step-by-step reasoning chain (§4.4) — in the
override case the override agent's step comes first and carries the full final
confidence while every other agent is recorded as overridden with delta 0; in
the weighted case one step per agent carries that agent's marginal
contribution to the final score. Steps are numbered contiguously from 1. -/
def reasoningChain (P : MergeParams) (agents : List AgentOutput) : List ReasoningStep :=
  match chooseDefinitive agents with
  | some a =>
    { step_number := 1
      agent := a.agent_id
      action := StepAction.confirmed
      description := "definitive finding confirms the diagnosis"
      evidence_used := []
      conclusion := a.top_diagnosis
      confidence_delta := a.confidence } ::
    ((agents.filter (fun b => b != a)).enum.map (fun ib =>
      { step_number := ib.1 + 2
        agent := ib.2.agent_id
        action := StepAction.overridden
        description := "overridden by the definitive finding"
        evidence_used := []
        conclusion := ib.2.top_diagnosis
        confidence_delta := 0 }))
  | none =>
    agents.enum.map (fun ib =>
      { step_number := ib.1 + 1
        agent := ib.2.agent_id
        action := StepAction.contributed
        description := "weighted contribution to the merged score"
        evidence_used := []
        conclusion := ib.2.top_diagnosis
        confidence_delta := confUpTo P agents (ib.1 + 1) - confUpTo P agents ib.1 })

/-- Modelled from the spec: the explanation record (§3), restricted to the
fields the verified properties mention. -/
structure Explanation where
  reasoning_chain : List ReasoningStep
  one_line : String
deriving DecidableEq

/-- Modelled from the spec: the Explainability Engine (§4.4), a pure function
of the consensus result, the safety report and the agent outputs. -/
def explain (P : MergeParams) (r : ConsensusResult) (s : SafetyReport)
    (agents : List AgentOutput) : Explanation :=
  { reasoning_chain := reasoningChain P agents
    one_line := r.top_diagnosis }

/-- An agent output with its top-diagnosis field blanked; used to state that
the agreement signal (which reads the top-diagnosis fields) is not folded into
the consensus confidence. -/
def eraseTop (a : AgentOutput) : AgentOutput := { a with top_diagnosis := "" }

/-- Modelled from the spec: an injective stand-in for the collision-resistant
digest of the Audit Ledger (§4.5) over canonical field serializations, built
from the Cantor pairing function. -/
def encodeList : List ℕ → ℕ
  | [] => 0
  | a :: l => Nat.pair a (encodeList l) + 1

/-- Modelled from the spec: the per-decision content fields of an audit entry
(everything the caller supplies: identifier, case, timestamp, input
fingerprint, result summary), each embedded as a natural number (§3). -/
structure AuditContent where
  audit_id : ℕ
  case_id : ℕ
  timestamp : ℕ
  input_fingerprint : ℕ
  result_summary : ℕ
deriving DecidableEq

/-- Modelled from the spec: a stored audit entry with its chain fields (§3). -/
structure AuditEntry where
  audit_id : ℕ
  case_id : ℕ
  sequence_number : ℕ
  timestamp : ℕ
  input_fingerprint : ℕ
  result_summary : ℕ
  prev_hash : ℕ
  hash : ℕ
deriving DecidableEq

/-- Modelled from the spec: canonical serialization of an entry's fields other
than `prev_hash` and `hash` (§4.5). -/
def canonicalBytes (e : AuditEntry) : List ℕ :=
  [e.audit_id, e.case_id, e.sequence_number, e.timestamp, e.input_fingerprint, e.result_summary]

/-- Modelled from the spec: the ledger digest over a canonical byte sequence
(§4.5). -/
def ledgerHash (l : List ℕ) : ℕ := encodeList l

/-- Modelled from the spec: an entry as `append` creates it — hash computed
over the canonical serialization of all other fields plus the previous hash
(§4.5). -/
def mkEntry (c : AuditContent) (seq prev : ℕ) : AuditEntry :=
  { audit_id := c.audit_id
    case_id := c.case_id
    sequence_number := seq
    timestamp := c.timestamp
    input_fingerprint := c.input_fingerprint
    result_summary := c.result_summary
    prev_hash := prev
    hash := ledgerHash
      ([c.audit_id, c.case_id, seq, c.timestamp, c.input_fingerprint, c.result_summary] ++ [prev]) }

/-- Modelled from the spec: the hash of the last stored entry, or the fixed
sentinel 0 for the first entry (§3, §4.5). -/
def lastHash (l : List AuditEntry) : ℕ :=
  match l.getLast? with
  | none => 0
  | some e => e.hash

/-- Modelled from the spec: `append`, the ledger's sole mutating operation —
assigns the next contiguous sequence number, links to the previous entry's
hash, and stores the entry (§4.5). -/
def appendEntry (l : List AuditEntry) (c : AuditContent) : List AuditEntry :=
  l ++ [mkEntry c (l.length + 1) (lastHash l)]

/-- Modelled from the spec: the ledger produced by a sequence of appends
starting from the empty store (§4.5). -/
def buildLedger (cs : List AuditContent) : List AuditEntry :=
  cs.foldl appendEntry []

/-- Modelled from the spec: the chain of entries written from a given previous
hash and starting sequence number; recursion-friendly description of repeated
appends. -/
def chainBuild : ℕ → ℕ → List AuditContent → List AuditEntry
  | _, _, [] => []
  | prev, seq, c :: cs => mkEntry c seq prev :: chainBuild (mkEntry c seq prev).hash (seq + 1) cs

/-- Modelled from the spec: the verification walk (§4.5) — recompute each
entry's hash from its stored fields in sequence order, check it against the
stored hash and check the previous-hash link, and report the earliest sequence
position at which either check fails. -/
def verifyGo : ℕ → ℕ → List AuditEntry → Option ℕ
  | _, _, [] => none
  | prev, idx, e :: rest =>
    if ledgerHash (canonicalBytes e ++ [e.prev_hash]) = e.hash ∧ e.prev_hash = prev then
      verifyGo e.hash (idx + 1) rest
    else some idx

/-- Modelled from the spec: `verify` over the whole ledger — `none` means
fully valid, `some n` reports the first invalid sequence number (§4.5). -/
def verifyLedger (l : List AuditEntry) : Option ℕ := verifyGo 0 1 l

/-- The all-zero entry, used as the default of out-of-range lookups. -/
def defaultEntry : AuditEntry := ⟨0, 0, 0, 0, 0, 0, 0, 0⟩

/-- A single-byte modification of a stored entry: the tampered entry differs
from the original in exactly one stored field (a byte flip lands inside
exactly one field of the serialized record). -/
def oneFieldDiff (e e' : AuditEntry) : Prop :=
  (e'.audit_id ≠ e.audit_id ∧ e'.case_id = e.case_id ∧ e'.sequence_number = e.sequence_number ∧
    e'.timestamp = e.timestamp ∧ e'.input_fingerprint = e.input_fingerprint ∧
    e'.result_summary = e.result_summary ∧ e'.prev_hash = e.prev_hash ∧ e'.hash = e.hash) ∨
  (e'.audit_id = e.audit_id ∧ e'.case_id ≠ e.case_id ∧ e'.sequence_number = e.sequence_number ∧
    e'.timestamp = e.timestamp ∧ e'.input_fingerprint = e.input_fingerprint ∧
    e'.result_summary = e.result_summary ∧ e'.prev_hash = e.prev_hash ∧ e'.hash = e.hash) ∨
  (e'.audit_id = e.audit_id ∧ e'.case_id = e.case_id ∧ e'.sequence_number ≠ e.sequence_number ∧
    e'.timestamp = e.timestamp ∧ e'.input_fingerprint = e.input_fingerprint ∧
    e'.result_summary = e.result_summary ∧ e'.prev_hash = e.prev_hash ∧ e'.hash = e.hash) ∨
  (e'.audit_id = e.audit_id ∧ e'.case_id = e.case_id ∧ e'.sequence_number = e.sequence_number ∧
    e'.timestamp ≠ e.timestamp ∧ e'.input_fingerprint = e.input_fingerprint ∧
    e'.result_summary = e.result_summary ∧ e'.prev_hash = e.prev_hash ∧ e'.hash = e.hash) ∨
  (e'.audit_id = e.audit_id ∧ e'.case_id = e.case_id ∧ e'.sequence_number = e.sequence_number ∧
    e'.timestamp = e.timestamp ∧ e'.input_fingerprint ≠ e.input_fingerprint ∧
    e'.result_summary = e.result_summary ∧ e'.prev_hash = e.prev_hash ∧ e'.hash = e.hash) ∨
  (e'.audit_id = e.audit_id ∧ e'.case_id = e.case_id ∧ e'.sequence_number = e.sequence_number ∧
    e'.timestamp = e.timestamp ∧ e'.input_fingerprint = e.input_fingerprint ∧
    e'.result_summary ≠ e.result_summary ∧ e'.prev_hash = e.prev_hash ∧ e'.hash = e.hash) ∨
  (e'.audit_id = e.audit_id ∧ e'.case_id = e.case_id ∧ e'.sequence_number = e.sequence_number ∧
    e'.timestamp = e.timestamp ∧ e'.input_fingerprint = e.input_fingerprint ∧
    e'.result_summary = e.result_summary ∧ e'.prev_hash ≠ e.prev_hash ∧ e'.hash = e.hash) ∨
  (e'.audit_id = e.audit_id ∧ e'.case_id = e.case_id ∧ e'.sequence_number = e.sequence_number ∧
    e'.timestamp = e.timestamp ∧ e'.input_fingerprint = e.input_fingerprint ∧
    e'.result_summary = e.result_summary ∧ e'.prev_hash = e.prev_hash ∧ e'.hash ≠ e.hash)

/-- The payload `handleSubmit` posts to `/diagnose`: each clinical section is
an optional string, plus the explain toggle (embedded from the page source). -/
structure DiagnosePayload where
  radiology : Option String
  ecg : Option String
  symptoms_text : Option String
  lab_text : Option String
  explain : Bool
deriving DecidableEq

/-- Embedding of the JavaScript expression `s || null` for a string-typed
state value: the empty string is the only falsy string, so it maps to `none`
and every other string to itself. -/
def orNull (s : String) : Option String :=
  if s = "" then none else some s

/-- Embedding of the payload construction in the main page's `handleSubmit`:
`{radiology: radiology || null, ecg: ecg || null, symptoms_text: symptoms ||
null, lab_text: labText || null, explain: explain}`. -/
def handleSubmitPayload (radiology ecg symptoms labText : String)
    (explainFlag : Bool) : DiagnosePayload :=
  { radiology := orNull radiology
    ecg := orNull ecg
    symptoms_text := orNull symptoms
    lab_text := orNull labText
    explain := explainFlag }

/-- The colors the confidence bar can take (`bg-green-500`, `bg-yellow-500`,
`bg-red-400`). -/
inductive BarColor
  | green
  | yellow
  | red
deriving DecidableEq

/-- What the `ConfidenceBar` component renders: the inner bar's width
percentage and its color class. -/
structure ConfidenceBarView where
  widthPercent : ℤ
  color : BarColor
deriving DecidableEq

/-- Embedding of JavaScript `Math.round` for the values involved: round half
away from negative infinity, `⌊x + 1/2⌋`. -/
def jsRound (q : ℚ) : ℤ := ⌊q + 1/2⌋

/-- Embedding of the `ConfidenceBar` component: `percentage =
Math.round(confidence * 100)`; green when definitive, otherwise green at 80
and above, yellow at 50 and above, red below. -/
def ConfidenceBar (confidence : ℚ) (isDefinitive : Bool) : ConfidenceBarView :=
  let percentage := jsRound (confidence * 100)
  { widthPercent := percentage
    color :=
      if isDefinitive then BarColor.green
      else if 80 ≤ percentage then BarColor.green
      else if 50 ≤ percentage then BarColor.yellow
      else BarColor.red }

/-- Concrete agent outputs used to evaluate the model: a definitive imaging
agent plus a disagreeing supportive agent. -/
def agsOverride : List AgentOutput :=
  [ { agent_id := "radiologist"
      diagnoses := [("Pulmonary Embolism", 49/50)]
      top_diagnosis := "Pulmonary Embolism"
      confidence := 49/50
      is_definitive := true
      certainty := Certainty.confirmed }
  , { agent_id := "pulmonologist"
      diagnoses := [("Pneumonia", 7/10)]
      top_diagnosis := "Pneumonia"
      confidence := 7/10
      is_definitive := false
      certainty := Certainty.likely } ]

/-- Concrete contradictory consensus: three-way disagreement, agreement score
one third, confidence above the ceiling, no override. -/
def rContra : ConsensusResult :=
  { diagnoses := [("Pneumonia", 7/10)]
    top_diagnosis := "Pneumonia"
    confidence := 7/10
    certainty := Certainty.likely
    override_agent := none
    agreement_score := 1/3 }

/-- Concrete override consensus: low agreement but a definitive override. -/
def rOver : ConsensusResult :=
  { diagnoses := [("Pulmonary Embolism", 49/50)]
    top_diagnosis := "Pulmonary Embolism"
    confidence := 49/50
    certainty := Certainty.confirmed
    override_agent := some "radiologist"
    agreement_score := 1/3 }

/-- Concrete calibration store: case 1 without ground truth, case 2 with. -/
def calibStore : List CalibrationRecord :=
  [ { case_id := 1, predicted_confidence := 49/50
      predicted_diagnosis := "Pulmonary Embolism", actual_outcome := none }
  , { case_id := 2, predicted_confidence := 7/10
      predicted_diagnosis := "Pneumonia", actual_outcome := some true } ]

/-- An agent output carrying no evidence at all. -/
def agsGhost : AgentOutput :=
  { agent_id := "cardiologist", diagnoses := [], top_diagnosis := "", confidence := 0,
    is_definitive := false, certainty := Certainty.suspected }

/-- A lone agent whose declared top diagnosis disagrees with the argmax of its
own diagnoses map; it separates the two clauses of the agreement-score claim. -/
def agsLone : List AgentOutput :=
  [{ agent_id := "pulmonologist", diagnoses := [("B", 9/10)], top_diagnosis := "A",
     confidence := 9/10, is_definitive := false, certainty := Certainty.suspected }]

/-- A concrete safety report used to instantiate the explainability contract. -/
def sReport : SafetyReport :=
  { critical_flags := [], contradiction := false, calibration_warning := none,
    adjusted_confidence := 0, adjusted_certainty := Certainty.suspected }

/-- Two decisions appended to the audit ledger. -/
def auditLog : List AuditContent :=
  [{ audit_id := 1, case_id := 2, timestamp := 3, input_fingerprint := 1, result_summary := 2 },
   { audit_id := 2, case_id := 2, timestamp := 4, input_fingerprint := 1, result_summary := 3 }]

/-- The first stored entry with its case identifier flipped. -/
def tamperedEntry : AuditEntry :=
  { (buildLedger auditLog).getD 0 defaultEntry with case_id := 9 }
end MADNX

namespace MADNX

theorem foldl_betterDefinitive_mem (rest : List AgentOutput) (a : AgentOutput) :
    rest.foldl betterDefinitive a ∈ a :: rest := by
  induction rest generalizing a with
  | nil => simp
  | cons b rest ih =>
    have h := ih (betterDefinitive a b)
    have hab : betterDefinitive a b = a ∨ betterDefinitive a b = b := by
      unfold betterDefinitive
      split
      · exact Or.inr rfl
      · split
        · exact Or.inr rfl
        · exact Or.inl rfl
    simp only [List.foldl_cons]
    rcases List.mem_cons.mp h with h1 | h1
    · rcases hab with h2 | h2
      · exact List.mem_cons.mpr (Or.inl (h1.trans h2))
      · exact List.mem_cons.mpr (Or.inr (List.mem_cons.mpr (Or.inl (h1.trans h2))))
    · exact List.mem_cons.mpr (Or.inr (List.mem_cons.mpr (Or.inr h1)))

theorem chooseDefinitive_mem {agents : List AgentOutput} {a : AgentOutput}
    (h : chooseDefinitive agents = some a) :
    a ∈ agents ∧ a.is_definitive = true := by
  unfold chooseDefinitive at h
  rcases hf : agents.filter (fun a => a.is_definitive) with _ | ⟨b, rest⟩
  · rw [hf] at h; exact absurd h (by simp)
  · rw [hf] at h
    simp only [Option.some.injEq] at h
    have hmem : a ∈ b :: rest := by
      rw [← h]; exact foldl_betterDefinitive_mem rest b
    rw [← hf] at hmem
    exact ⟨List.mem_of_mem_filter hmem, by simpa using List.of_mem_filter hmem⟩

theorem chooseDefinitive_isSome {agents : List AgentOutput}
    (h : ∃ a ∈ agents, a.is_definitive = true) :
    ∃ b, chooseDefinitive agents = some b := by
  obtain ⟨a, hmem, hdef⟩ := h
  unfold chooseDefinitive
  rcases hf : agents.filter (fun a => a.is_definitive) with _ | ⟨b, rest⟩
  · exfalso
    have : a ∈ agents.filter (fun a => a.is_definitive) :=
      List.mem_filter.mpr ⟨hmem, by simpa using hdef⟩
    rw [hf] at this
    simp at this
  · rw [hf]
    exact ⟨rest.foldl betterDefinitive b, rfl⟩

/-- C1: for every sequence of agent outputs containing at least one definitive
entry, the Consensus Engine's merge returns a result whose certainty is
confirmed, whose top diagnosis is the (selected) definitive agent's diagnosis,
and whose confidence equals that agent's floor-adjusted confidence exactly —
no averaging across agents is applied to it. -/
theorem override_dominance (P : MergeParams) (agents : List AgentOutput)
    (h : ∃ a ∈ agents, a.is_definitive = true) :
    ∃ a ∈ agents, a.is_definitive = true ∧
      (merge P agents).certainty = Certainty.confirmed ∧
      (merge P agents).top_diagnosis = a.top_diagnosis ∧
      (merge P agents).confidence = a.confidence := by
  obtain ⟨b, hb⟩ := chooseDefinitive_isSome h
  obtain ⟨hmem, hdef⟩ := chooseDefinitive_mem hb
  refine ⟨b, hmem, hdef, ?_, ?_, ?_⟩ <;> simp [merge, hb]

theorem override_dominance_witness :
    ∃ a ∈ agsOverride, a.is_definitive = true ∧
      (merge defaultParams agsOverride).certainty = Certainty.confirmed ∧
      (merge defaultParams agsOverride).top_diagnosis = a.top_diagnosis ∧
      (merge defaultParams agsOverride).confidence = a.confidence :=
  override_dominance defaultParams agsOverride
    ⟨agsOverride.head (by simp [agsOverride]), by simp [agsOverride], rfl⟩

/-- C3: for every consensus result, agent sequence and calibration snapshot,
the Safety Reviewer's review reports an adjusted confidence that is at most
the consensus confidence — it never raises confidence. -/
theorem review_never_raises (r : ConsensusResult) (agents : List AgentOutput)
    (tracker : List CalibrationRecord) :
    (review r agents tracker).adjusted_confidence ≤ r.confidence := by
  simp only [review]
  split
  · exact min_le_left _ _
  · exact le_refl _

/-- C5: whenever the agreement score is below the contradiction threshold and
no definitive override occurred, review sets the contradiction flag and caps
the adjusted confidence at the safety ceiling, downgrading the certainty one
level if the uncapped value exceeded the ceiling; override results are exempt
from the cap. -/
theorem contradiction_cap (r : ConsensusResult) (agents : List AgentOutput)
    (tracker : List CalibrationRecord) :
    (r.agreement_score < contradictionThreshold → r.override_agent = none →
      (review r agents tracker).contradiction = true ∧
      (review r agents tracker).adjusted_confidence = min r.confidence safetyCeiling ∧
      (safetyCeiling < r.confidence →
        (review r agents tracker).adjusted_certainty = downgrade r.certainty)) ∧
    (r.override_agent ≠ none →
      (review r agents tracker).contradiction = false ∧
      (review r agents tracker).adjusted_confidence = r.confidence) := by
  constructor
  · intro h1 h2
    refine ⟨?_, ?_, ?_⟩
    · simp [review, h1, h2]
    · simp [review, h1, h2]
    · intro h3
      simp [review, h1, h2, h3]
  · intro h
    constructor
    · simp [review, h]
    · simp [review, h]

theorem contradiction_cap_witness :
    (review rContra [] []).contradiction = true ∧
    (review rContra [] []).adjusted_confidence = min rContra.confidence safetyCeiling ∧
    (review rContra [] []).adjusted_certainty = downgrade rContra.certainty ∧
    (review rOver [] []).contradiction = false ∧
    (review rOver [] []).adjusted_confidence = rOver.confidence := by
  have h1 := (contradiction_cap rContra [] []).1
    (by norm_num [rContra, contradictionThreshold]) rfl
  have h2 := (contradiction_cap rOver [] []).2 (by simp [rOver])
  exact ⟨h1.1, h1.2.1, h1.2.2 (by norm_num [rContra, safetyCeiling]), h2.1, h2.2⟩

theorem consOk_eq_error (r : CalibrationRecord)
    (x : Except CalibError (List CalibrationRecord)) (e : CalibError) :
    consOk r x = Except.error e ↔ x = Except.error e := by
  cases x <;> simp [consOk]

theorem map_setOutcome_id (c : ℕ) (o : Bool) (l : List CalibrationRecord)
    (h : ∀ x ∈ l, x.case_id ≠ c) : l.map (setOutcome c o) = l := by
  induction l with
  | nil => rfl
  | cons r rs ih =>
    have hr : r.case_id ≠ c := h r (by simp)
    simp only [List.map_cons, setOutcome, if_neg hr]
    rw [ih (fun x hx => h x (by simp [hx]))]

theorem record_outcome_notFound (l : List CalibrationRecord) (c : ℕ) (o : Bool) :
    record_outcome l c o = Except.error CalibError.NotFound ↔ ∀ r ∈ l, r.case_id ≠ c := by
  induction l with
  | nil => simp [record_outcome]
  | cons r rs ih =>
    by_cases hc : r.case_id = c
    · cases ho : r.actual_outcome with
      | none =>
        simp only [record_outcome, if_pos hc, ho]
        constructor
        · intro h; exact absurd h (by simp)
        · intro h; exact absurd hc (h r (by simp))
      | some b =>
        simp only [record_outcome, if_pos hc, ho]
        constructor
        · intro h; exact absurd h (by simp)
        · intro h; exact absurd hc (h r (by simp))
    · simp only [record_outcome, if_neg hc, consOk_eq_error]
      rw [ih]
      constructor
      · intro h x hx
        rcases List.mem_cons.mp hx with h1 | h1
        · rw [h1]; exact hc
        · exact h x h1
      · intro h x hx; exact h x (by simp [hx])

theorem record_outcome_alreadyRecorded (l : List CalibrationRecord) (c : ℕ) (o : Bool)
    (hw : (l.map CalibrationRecord.case_id).Nodup) :
    record_outcome l c o = Except.error CalibError.AlreadyRecorded ↔
      ∃ r ∈ l, r.case_id = c ∧ r.actual_outcome ≠ none := by
  induction l with
  | nil => simp [record_outcome]
  | cons r rs ih =>
    rw [List.map_cons, List.nodup_cons] at hw
    obtain ⟨hnotin, hw'⟩ := hw
    by_cases hc : r.case_id = c
    · cases ho : r.actual_outcome with
      | none =>
        simp only [record_outcome, if_pos hc, ho]
        refine iff_of_false (by simp) ?_
        rintro ⟨x, hx, hxc, hxo⟩
        rcases List.mem_cons.mp hx with h1 | h1
        · rw [h1] at hxo; exact hxo ho
        · exact hnotin (by rw [hc, ← hxc]; exact List.mem_map_of_mem _ h1)
      | some b =>
        simp only [record_outcome, if_pos hc, ho]
        exact iff_of_true trivial ⟨r, by simp, hc, by simp [ho]⟩
    · simp only [record_outcome, if_neg hc, consOk_eq_error]
      rw [ih hw']
      constructor
      · rintro ⟨x, hx, hxc, hxo⟩; exact ⟨x, by simp [hx], hxc, hxo⟩
      · rintro ⟨x, hx, hxc, hxo⟩
        rcases List.mem_cons.mp hx with h1 | h1
        · rw [h1] at hxc; exact absurd hxc hc
        · exact ⟨x, h1, hxc, hxo⟩

theorem record_outcome_ok (l : List CalibrationRecord) (c : ℕ) (o : Bool)
    (hw : (l.map CalibrationRecord.case_id).Nodup)
    (h : ∃ r ∈ l, r.case_id = c ∧ r.actual_outcome = none) :
    record_outcome l c o = Except.ok (l.map (setOutcome c o)) := by
  induction l with
  | nil => simp at h
  | cons r rs ih =>
    rw [List.map_cons, List.nodup_cons] at hw
    obtain ⟨hnotin, hw'⟩ := hw
    obtain ⟨x, hx, hxc, hxo⟩ := h
    by_cases hc : r.case_id = c
    · have hxr : x = r := by
        rcases List.mem_cons.mp hx with h1 | h1
        · exact h1
        · exact absurd (by rw [hc, ← hxc]; exact List.mem_map_of_mem _ h1) hnotin
      rw [hxr] at hxo
      simp only [record_outcome, if_pos hc, hxo, List.map_cons]
      rw [map_setOutcome_id c o rs
        (fun y hy hyc => hnotin (by rw [hc, ← hyc]; exact List.mem_map_of_mem _ hy))]
      simp [setOutcome, if_pos hc]
    · have hxrs : x ∈ rs := by
        rcases List.mem_cons.mp hx with h1 | h1
        · rw [h1] at hxc; exact absurd hxc hc
        · exact h1
      simp only [record_outcome, if_neg hc, ih hw' ⟨x, hxrs, hxc, hxo⟩, consOk,
        List.map_cons, setOutcome, if_neg hc]

/-- C7: with case identifiers unique in the store, ground-truth submission
fails with NotFound exactly when no record with the case identifier was ever
recorded, fails with AlreadyRecorded exactly when the matching record's
outcome was already set, and otherwise succeeds, mutating exactly the one
matching record and leaving every other record unchanged. -/
theorem ground_truth_update (l : List CalibrationRecord) (c : ℕ) (o : Bool)
    (hw : (l.map CalibrationRecord.case_id).Nodup) :
    (record_outcome l c o = Except.error CalibError.NotFound ↔ ∀ r ∈ l, r.case_id ≠ c) ∧
    (record_outcome l c o = Except.error CalibError.AlreadyRecorded ↔
      ∃ r ∈ l, r.case_id = c ∧ r.actual_outcome ≠ none) ∧
    ((∃ r ∈ l, r.case_id = c ∧ r.actual_outcome = none) →
      record_outcome l c o = Except.ok (l.map (setOutcome c o))) :=
  ⟨record_outcome_notFound l c o,
   record_outcome_alreadyRecorded l c o hw,
   record_outcome_ok l c o hw⟩

/-- C9: the payload posted to /diagnose maps each of the four clinical-section
fields to null exactly when the corresponding textarea state is the empty
string, and to the entered text otherwise; the explain toggle passes through
unchanged. -/
theorem handleSubmit_blank_is_null (r e s l : String) (x : Bool) :
    ((handleSubmitPayload r e s l x).radiology = none ↔ r = "") ∧
    ((handleSubmitPayload r e s l x).radiology = some r ↔ r ≠ "") ∧
    ((handleSubmitPayload r e s l x).ecg = none ↔ e = "") ∧
    ((handleSubmitPayload r e s l x).ecg = some e ↔ e ≠ "") ∧
    ((handleSubmitPayload r e s l x).symptoms_text = none ↔ s = "") ∧
    ((handleSubmitPayload r e s l x).symptoms_text = some s ↔ s ≠ "") ∧
    ((handleSubmitPayload r e s l x).lab_text = none ↔ l = "") ∧
    ((handleSubmitPayload r e s l x).lab_text = some l ↔ l ≠ "") ∧
    (handleSubmitPayload r e s l x).explain = x := by
  refine ⟨?_, ?_, ?_, ?_, ?_, ?_, ?_, ?_, rfl⟩ <;>
    simp only [handleSubmitPayload, orNull] <;>
    split <;> simp_all

/-- C10: the confidence bar is a pure function of the confidence and the
definitive flag — its width is always round(confidence × 100) percent, its
color is green whenever the flag is set regardless of confidence, and
otherwise green exactly at a rounded percentage of 80 and above, yellow
exactly between 50 and 79, and red exactly below 50. -/
theorem confidenceBar_spec (c : ℚ) :
    ((ConfidenceBar c true).widthPercent = jsRound (c * 100)) ∧
    ((ConfidenceBar c false).widthPercent = jsRound (c * 100)) ∧
    ((ConfidenceBar c true).color = BarColor.green) ∧
    ((ConfidenceBar c false).color = BarColor.green ↔ 80 ≤ jsRound (c * 100)) ∧
    ((ConfidenceBar c false).color = BarColor.yellow ↔
      50 ≤ jsRound (c * 100) ∧ jsRound (c * 100) < 80) ∧
    ((ConfidenceBar c false).color = BarColor.red ↔ jsRound (c * 100) < 50) := by
  refine ⟨rfl, rfl, rfl, ?_, ?_, ?_⟩ <;>
    · simp only [ConfidenceBar]
      split_ifs with h1 h2 <;> simp_all <;> omega

theorem ground_truth_update_witness :
    record_outcome calibStore 1 true = Except.ok (calibStore.map (setOutcome 1 true)) ∧
    (record_outcome calibStore 3 true = Except.error CalibError.NotFound ↔
      ∀ r ∈ calibStore, r.case_id ≠ 3) ∧
    (record_outcome calibStore 2 true = Except.error CalibError.AlreadyRecorded ↔
      ∃ r ∈ calibStore, r.case_id = 2 ∧ r.actual_outcome ≠ none) :=
  ⟨(ground_truth_update calibStore 1 true (by decide)).2.2
      ⟨calibStore.head (by simp [calibStore]), by simp [calibStore], rfl, rfl⟩,
   (ground_truth_update calibStore 3 true (by decide)).1,
   (ground_truth_update calibStore 2 true (by decide)).2.1⟩

theorem chooseDefinitive_cons_nondef {a : AgentOutput} (agents : List AgentOutput)
    (h : a.is_definitive = false) :
    chooseDefinitive (a :: agents) = chooseDefinitive agents := by
  unfold chooseDefinitive
  rw [List.filter_cons_of_neg (by simp [h])]

theorem merge_nil (P : MergeParams) :
    merge P [] =
      { diagnoses := [], top_diagnosis := "Unknown", confidence := 0,
        certainty := Certainty.suspected, override_agent := none, agreement_score := 0 } := by
  norm_num [merge, chooseDefinitive, normalizedScores, allNames, scoreFor, contributions,
    pickTop, agreementScore, matchFraction]

theorem contributions_cons_empty (P : MergeParams) (agents : List AgentOutput)
    (a : AgentOutput) (h : a.diagnoses = []) :
    contributions P (a :: agents) = contributions P agents := by
  funext d
  simp [contributions, h]

theorem scoreFor_cons_empty (P : MergeParams) (agents : List AgentOutput)
    (a : AgentOutput) (h : a.diagnoses = []) :
    scoreFor P (a :: agents) = scoreFor P agents := by
  funext d
  simp only [scoreFor, contributions_cons_empty P agents a h]

theorem allNames_cons_empty (agents : List AgentOutput) (a : AgentOutput)
    (h : a.diagnoses = []) :
    allNames (a :: agents) = allNames agents := by
  simp [allNames, h]

theorem topContribPriority_cons_empty (P : MergeParams) (agents : List AgentOutput)
    (a : AgentOutput) (h : a.diagnoses = []) :
    topContribPriority P (a :: agents) = topContribPriority P agents := by
  funext d
  simp [topContribPriority, h]

theorem normalizedScores_cons_empty (P : MergeParams) (agents : List AgentOutput)
    (a : AgentOutput) (h : a.diagnoses = []) :
    normalizedScores P (a :: agents) = normalizedScores P agents := by
  simp only [normalizedScores, scoreFor_cons_empty P agents a h,
    allNames_cons_empty agents a h]

theorem pickTop_cons_empty (P : MergeParams) (agents : List AgentOutput)
    (a : AgentOutput) (h : a.diagnoses = []) :
    pickTop P (a :: agents) = pickTop P agents := by
  funext scored
  simp only [pickTop, topContribPriority_cons_empty P agents a h]

/-- C6: the Consensus Engine's merge is a deterministic total function — on
the empty input it still returns a (trivial) consensus result, and an agent
contributing no evidence (an empty diagnoses map, no definitive finding)
leaves the merged diagnoses, top diagnosis and confidence unchanged: a
missing specialist is absence of evidence, not zero-confidence evidence
against any diagnosis. -/
theorem merge_total_on_missing (P : MergeParams) :
    (merge P [] =
      { diagnoses := [], top_diagnosis := "Unknown", confidence := 0,
        certainty := Certainty.suspected, override_agent := none, agreement_score := 0 }) ∧
    (∀ (agents : List AgentOutput) (a : AgentOutput),
      a.diagnoses = [] → a.is_definitive = false →
      (merge P (a :: agents)).diagnoses = (merge P agents).diagnoses ∧
      (merge P (a :: agents)).top_diagnosis = (merge P agents).top_diagnosis ∧
      (merge P (a :: agents)).confidence = (merge P agents).confidence) := by
  refine ⟨merge_nil P, ?_⟩
  intro agents a h1 h2
  have hcd := chooseDefinitive_cons_nondef agents h2
  have hns := normalizedScores_cons_empty P agents a h1
  have hpt := pickTop_cons_empty P agents a h1
  simp only [merge, hcd, hns, hpt]
  cases hc : chooseDefinitive agents with
  | some b => simp
  | none => cases hp : pickTop P agents (normalizedScores P agents) <;> simp

@[simp] theorem eraseTop_agent_id (a : AgentOutput) : (eraseTop a).agent_id = a.agent_id := rfl

@[simp] theorem eraseTop_diagnoses (a : AgentOutput) : (eraseTop a).diagnoses = a.diagnoses := rfl

@[simp] theorem eraseTop_confidence (a : AgentOutput) : (eraseTop a).confidence = a.confidence := rfl

@[simp] theorem eraseTop_is_definitive (a : AgentOutput) :
    (eraseTop a).is_definitive = a.is_definitive := rfl

theorem filter_def_map_eraseTop (l : List AgentOutput) :
    (l.map eraseTop).filter (fun a => a.is_definitive) =
      (l.filter (fun a => a.is_definitive)).map eraseTop := by
  rw [List.filter_map]
  rfl

theorem betterDefinitive_eraseTop (a b : AgentOutput) :
    betterDefinitive (eraseTop a) (eraseTop b) = eraseTop (betterDefinitive a b) := by
  unfold betterDefinitive
  simp only [eraseTop_confidence, eraseTop_agent_id]
  split_ifs <;> rfl

theorem foldl_betterDefinitive_eraseTop (rest : List AgentOutput) (a : AgentOutput) :
    (rest.map eraseTop).foldl betterDefinitive (eraseTop a) =
      eraseTop (rest.foldl betterDefinitive a) := by
  induction rest generalizing a with
  | nil => rfl
  | cons b t ih => simp only [List.map_cons, List.foldl_cons, betterDefinitive_eraseTop, ih]

theorem chooseDefinitive_map_eraseTop (l : List AgentOutput) :
    chooseDefinitive (l.map eraseTop) = (chooseDefinitive l).map eraseTop := by
  unfold chooseDefinitive
  rw [filter_def_map_eraseTop]
  cases l.filter (fun a => a.is_definitive) with
  | nil => rfl
  | cons a rest => simp [foldl_betterDefinitive_eraseTop]

theorem allNames_map_eraseTop (l : List AgentOutput) :
    allNames (l.map eraseTop) = allNames l := by
  simp only [allNames, List.map_map]
  rfl

theorem contributions_map_eraseTop (P : MergeParams) (l : List AgentOutput) :
    contributions P (l.map eraseTop) = contributions P l := by
  funext d
  simp only [contributions, List.filterMap_map]
  rfl

theorem scoreFor_map_eraseTop (P : MergeParams) (l : List AgentOutput) :
    scoreFor P (l.map eraseTop) = scoreFor P l := by
  funext d
  simp only [scoreFor, contributions_map_eraseTop]

theorem topContribPriority_map_eraseTop (P : MergeParams) (l : List AgentOutput) :
    topContribPriority P (l.map eraseTop) = topContribPriority P l := by
  funext d
  simp only [topContribPriority, List.filterMap_map]
  rfl

theorem normalizedScores_map_eraseTop (P : MergeParams) (l : List AgentOutput) :
    normalizedScores P (l.map eraseTop) = normalizedScores P l := by
  simp only [normalizedScores, scoreFor_map_eraseTop, allNames_map_eraseTop]

theorem pickTop_map_eraseTop (P : MergeParams) (l : List AgentOutput) :
    pickTop P (l.map eraseTop) = pickTop P l := by
  funext scored
  simp only [pickTop, topContribPriority_map_eraseTop]

theorem merge_confidence_eraseTop (P : MergeParams) (l : List AgentOutput) :
    (merge P (l.map eraseTop)).confidence = (merge P l).confidence := by
  simp only [merge, chooseDefinitive_map_eraseTop, normalizedScores_map_eraseTop,
    pickTop_map_eraseTop]
  cases chooseDefinitive l with
  | some a => simp
  | none => cases pickTop P l (normalizedScores P l) <;> simp

theorem merge_agreement (P : MergeParams) (agents : List AgentOutput) :
    (merge P agents).agreement_score =
      agreementScore agents (merge P agents).top_diagnosis := by
  cases hc : chooseDefinitive agents with
  | some a => simp [merge, hc]
  | none =>
    cases hp : pickTop P agents (normalizedScores P agents) with
    | none => simp [merge, hc, hp]
    | some ds => simp [merge, hc, hp]

/-- C8 counterexample: on a single agent whose top-diagnosis field does not
match the merged top diagnosis, the agreement score (1.0 by the
single-agent rule) differs from the fraction of agents whose top diagnosis
matches the final one (0), so the claim's two clauses cannot both hold. -/
theorem agreement_fraction_counterexample :
    ¬ ((merge defaultParams agsLone).agreement_score =
        matchFraction agsLone (merge defaultParams agsLone).top_diagnosis) := by
  have h1 : (merge defaultParams agsLone).agreement_score = 1 := by
    rw [merge_agreement]
    simp [agreementScore, agsLone]
  have h2 : (merge defaultParams agsLone).top_diagnosis = "B" := by
    norm_num [merge, agsLone, chooseDefinitive, normalizedScores, allNames, scoreFor,
      contributions, mergeWeight, defaultParams, topContribPriority, pickTop,
      List.filterMap_cons, List.lookup_cons]
  intro heq
  rw [h1, h2] at heq
  have h3 : matchFraction agsLone "B" = 0 := by
    norm_num [matchFraction, agsLone]
    decide
  rw [h3] at heq
  exact absurd heq (by norm_num)

/-- C8 (amended): for two or more agents the agreement score equals the
fraction of agents whose top diagnosis equals the final top diagnosis; for
exactly one agent it equals 1.0; and the agreement signal is not folded into
the consensus confidence — blanking every agent's top-diagnosis field (which
is all the agreement score reads) leaves the merged confidence unchanged. -/
theorem agreement_score_amended (P : MergeParams) (agents : List AgentOutput) :
    (2 ≤ agents.length →
      (merge P agents).agreement_score =
        matchFraction agents (merge P agents).top_diagnosis) ∧
    (agents.length = 1 → (merge P agents).agreement_score = 1) ∧
    (merge P (agents.map eraseTop)).confidence = (merge P agents).confidence := by
  refine ⟨?_, ?_, merge_confidence_eraseTop P agents⟩
  · intro h
    rw [merge_agreement]
    unfold agreementScore
    rw [if_neg (by omega)]
  · intro h
    rw [merge_agreement]
    simp [agreementScore, h]

theorem agreement_score_amended_witness :
    ((merge defaultParams agsOverride).agreement_score =
      matchFraction agsOverride (merge defaultParams agsOverride).top_diagnosis) ∧
    ((merge defaultParams agsLone).agreement_score = 1) ∧
    (merge defaultParams (agsOverride.map eraseTop)).confidence =
      (merge defaultParams agsOverride).confidence :=
  ⟨(agreement_score_amended defaultParams agsOverride).1 (by simp [agsOverride]),
   (agreement_score_amended defaultParams agsLone).2.1 (by simp [agsLone]),
   (agreement_score_amended defaultParams agsOverride).2.2⟩

theorem sum_map_zeroQ {α : Type} (l : List α) : (l.map (fun _ => (0 : ℚ))).sum = 0 := by
  induction l <;> simp_all

theorem teleSum (f : ℕ → ℚ) (n : ℕ) :
    ((List.range n).map (fun i => f (i + 1) - f i)).sum = f n - f 0 := by
  induction n with
  | zero => simp
  | succ n ih =>
    rw [List.range_succ, List.map_append, List.sum_append, ih]
    simp

/-- C4: the confidence deltas of the reasoning chain sum to the final
consensus confidence minus the baseline prior of 0; in the override case the
chain starts with the override agent's step carrying the full final
confidence, and every other step is recorded as overridden with delta 0. -/
theorem reasoning_chain_conservation (P : MergeParams) (s : SafetyReport)
    (agents : List AgentOutput) :
    (((explain P (merge P agents) s agents).reasoning_chain.map
        (fun t => t.confidence_delta)).sum = (merge P agents).confidence - baselinePrior) ∧
    ((∃ a ∈ agents, a.is_definitive = true) →
      ∃ t rest, (explain P (merge P agents) s agents).reasoning_chain = t :: rest ∧
        t.confidence_delta = (merge P agents).confidence ∧
        ∀ u ∈ rest, u.action = StepAction.overridden ∧ u.confidence_delta = 0) := by
  have hch : (explain P (merge P agents) s agents).reasoning_chain = reasoningChain P agents := rfl
  rw [hch]
  cases hc : chooseDefinitive agents with
  | some a =>
    constructor
    · simp only [reasoningChain, hc, List.map_cons, List.sum_cons, List.map_map]
      rw [show ((fun t => t.confidence_delta) ∘
          (fun ib : ℕ × AgentOutput =>
            ({ step_number := ib.1 + 2, agent := ib.2.agent_id,
               action := StepAction.overridden,
               description := "overridden by the definitive finding",
               evidence_used := [], conclusion := ib.2.top_diagnosis,
               confidence_delta := 0 } : ReasoningStep))) =
          (fun _ : ℕ × AgentOutput => (0 : ℚ)) from rfl]
      rw [sum_map_zeroQ]
      simp [merge, hc, baselinePrior]
    · intro _
      simp only [reasoningChain, hc]
      refine ⟨_, _, rfl, by simp [merge, hc], ?_⟩
      intro u hu
      simp only [List.mem_map] at hu
      obtain ⟨ib, _, hib⟩ := hu
      rw [← hib]
      exact ⟨rfl, rfl⟩
  | none =>
    constructor
    · simp only [reasoningChain, hc, List.map_map]
      rw [show ((fun t => t.confidence_delta) ∘
          (fun ib : ℕ × AgentOutput =>
            ({ step_number := ib.1 + 1, agent := ib.2.agent_id,
               action := StepAction.contributed,
               description := "weighted contribution to the merged score",
               evidence_used := [], conclusion := ib.2.top_diagnosis,
               confidence_delta := confUpTo P agents (ib.1 + 1) - confUpTo P agents ib.1 } :
              ReasoningStep))) =
          ((fun i => confUpTo P agents (i + 1) - confUpTo P agents i) ∘ Prod.fst) from rfl]
      rw [← List.map_map, List.enum_map_fst, teleSum]
      simp [confUpTo, List.take_length, merge_nil, baselinePrior]
    · intro hex
      exfalso
      obtain ⟨b, hb⟩ := chooseDefinitive_isSome hex
      rw [hc] at hb
      exact absurd hb (by simp)

theorem reasoning_chain_conservation_witness :
    (((explain defaultParams (merge defaultParams agsOverride) sReport agsOverride).reasoning_chain.map
        (fun t => t.confidence_delta)).sum =
      (merge defaultParams agsOverride).confidence - baselinePrior) ∧
    (∃ t rest,
      (explain defaultParams (merge defaultParams agsOverride) sReport agsOverride).reasoning_chain =
        t :: rest ∧
      t.confidence_delta = (merge defaultParams agsOverride).confidence ∧
      ∀ u ∈ rest, u.action = StepAction.overridden ∧ u.confidence_delta = 0) :=
  ⟨(reasoning_chain_conservation defaultParams sReport agsOverride).1,
   (reasoning_chain_conservation defaultParams sReport agsOverride).2
     ⟨agsOverride.head (by simp [agsOverride]), by simp [agsOverride], rfl⟩⟩

theorem encodeList_injective : Function.Injective encodeList := by
  intro l1 l2 h
  induction l1 generalizing l2 with
  | nil =>
    cases l2 with
    | nil => rfl
    | cons b t => simp [encodeList] at h
  | cons a t ih =>
    cases l2 with
    | nil => simp [encodeList] at h
    | cons b s =>
      simp only [encodeList, Nat.add_right_cancel_iff] at h
      obtain ⟨h1, h2⟩ := Nat.pair_eq_pair.mp h
      rw [h1, ih h2]

theorem oneFieldDiff_cases (e e' : AuditEntry) (h : oneFieldDiff e e') :
    (canonicalBytes e' ≠ canonicalBytes e ∧ e'.prev_hash = e.prev_hash ∧ e'.hash = e.hash) ∨
    (e'.prev_hash ≠ e.prev_hash) ∨
    (canonicalBytes e' = canonicalBytes e ∧ e'.prev_hash = e.prev_hash ∧ e'.hash ≠ e.hash) := by
  rcases h with h | h | h | h | h | h | h | h
  · exact Or.inl ⟨by intro hc; simp [canonicalBytes] at hc; exact h.1 hc.1,
      h.2.2.2.2.2.2.1, h.2.2.2.2.2.2.2⟩
  · exact Or.inl ⟨by intro hc; simp [canonicalBytes] at hc; exact h.2.1 hc.2.1,
      h.2.2.2.2.2.2.1, h.2.2.2.2.2.2.2⟩
  · exact Or.inl ⟨by intro hc; simp [canonicalBytes] at hc; exact h.2.2.1 hc.2.2.1,
      h.2.2.2.2.2.2.1, h.2.2.2.2.2.2.2⟩
  · exact Or.inl ⟨by intro hc; simp [canonicalBytes] at hc; exact h.2.2.2.1 hc.2.2.2.1,
      h.2.2.2.2.2.2.1, h.2.2.2.2.2.2.2⟩
  · exact Or.inl ⟨by intro hc; simp [canonicalBytes] at hc; exact h.2.2.2.2.1 hc.2.2.2.2.1,
      h.2.2.2.2.2.2.1, h.2.2.2.2.2.2.2⟩
  · exact Or.inl ⟨by intro hc; simp [canonicalBytes] at hc; exact h.2.2.2.2.2.1 hc.2.2.2.2.2,
      h.2.2.2.2.2.2.1, h.2.2.2.2.2.2.2⟩
  · exact Or.inr (Or.inl h.2.2.2.2.2.2.1)
  · exact Or.inr (Or.inr ⟨by simp [canonicalBytes, h.1, h.2.1, h.2.2.1, h.2.2.2.1,
      h.2.2.2.2.1, h.2.2.2.2.2.1], h.2.2.2.2.2.2.1, h.2.2.2.2.2.2.2⟩)

theorem mkEntry_check_fails (c : AuditContent) (seq prev : ℕ) (e' : AuditEntry)
    (h : oneFieldDiff (mkEntry c seq prev) e') :
    ¬(ledgerHash (canonicalBytes e' ++ [e'.prev_hash]) = e'.hash ∧ e'.prev_hash = prev) := by
  rintro ⟨h1, h2⟩
  rcases oneFieldDiff_cases _ _ h with ⟨hc, hp, hh⟩ | hp | ⟨hc, hp, hh⟩
  · rw [hh, h2] at h1
    have hlist : canonicalBytes e' ++ [prev] =
        canonicalBytes (mkEntry c seq prev) ++ [prev] :=
      encodeList_injective h1
    exact hc ((List.append_inj' hlist rfl).1)
  · exact hp (by rw [h2]; rfl)
  · rw [hc, h2] at h1
    exact hh h1.symm

theorem chainBuild_verify (cs : List AuditContent) :
    ∀ prev seq, verifyGo prev seq (chainBuild prev seq cs) = none := by
  induction cs with
  | nil => intro prev seq; rfl
  | cons c cs ih =>
    intro prev seq
    show verifyGo prev seq (mkEntry c seq prev :: chainBuild (mkEntry c seq prev).hash (seq + 1) cs) = none
    rw [verifyGo, if_pos ⟨rfl, rfl⟩]
    exact ih _ _

theorem lastHash_concat (l : List AuditEntry) (e : AuditEntry) :
    lastHash (l ++ [e]) = e.hash := by
  simp [lastHash, List.getLast?_concat]

theorem foldl_appendEntry (cs : List AuditContent) :
    ∀ l : List AuditEntry,
      cs.foldl appendEntry l = l ++ chainBuild (lastHash l) (l.length + 1) cs := by
  induction cs with
  | nil => intro l; simp [chainBuild]
  | cons c cs ih =>
    intro l
    rw [List.foldl_cons, ih]
    show (l ++ [mkEntry c (l.length + 1) (lastHash l)]) ++
        chainBuild (lastHash (appendEntry l c)) ((appendEntry l c).length + 1) cs =
      l ++ chainBuild (lastHash l) (l.length + 1) (c :: cs)
    rw [show lastHash (appendEntry l c) = (mkEntry c (l.length + 1) (lastHash l)).hash from
        lastHash_concat l _]
    rw [show (appendEntry l c).length = l.length + 1 by simp [appendEntry]]
    rw [show chainBuild (lastHash l) (l.length + 1) (c :: cs) =
        mkEntry c (l.length + 1) (lastHash l) ::
          chainBuild (mkEntry c (l.length + 1) (lastHash l)).hash (l.length + 1 + 1) cs from rfl]
    simp [List.append_assoc]

theorem buildLedger_eq (cs : List AuditContent) : buildLedger cs = chainBuild 0 1 cs := by
  unfold buildLedger
  rw [foldl_appendEntry cs []]
  rfl

theorem chainBuild_tamper (cs : List AuditContent) :
    ∀ prev seq k (e' : AuditEntry), k < cs.length →
      oneFieldDiff ((chainBuild prev seq cs).getD k defaultEntry) e' →
      verifyGo prev seq ((chainBuild prev seq cs).set k e') = some (seq + k) := by
  induction cs with
  | nil => intro prev seq k e' hk; simp at hk
  | cons c cs ih =>
    intro prev seq k e' hk hd
    cases k with
    | zero =>
      show verifyGo prev seq
        (e' :: chainBuild (mkEntry c seq prev).hash (seq + 1) cs) = some (seq + 0)
      have hd0 : oneFieldDiff (mkEntry c seq prev) e' := by
        simpa [chainBuild] using hd
      rw [verifyGo, if_neg (mkEntry_check_fails c seq prev e' hd0)]
      rfl
    | succ k =>
      show verifyGo prev seq
        ((mkEntry c seq prev :: chainBuild (mkEntry c seq prev).hash (seq + 1) cs).set
          (k + 1) e') = some (seq + (k + 1))
      rw [List.set_cons_succ, verifyGo, if_pos ⟨rfl, rfl⟩]
      have hd1 : oneFieldDiff
          ((chainBuild (mkEntry c seq prev).hash (seq + 1) cs).getD k defaultEntry) e' := by
        simpa [chainBuild] using hd
      rw [ih (mkEntry c seq prev).hash (seq + 1) k e' (by simpa using hk) hd1]
      congr 1
      omega

/-- C2: for any sequence of appends to the Audit Ledger with no tampering,
verify reports fully valid; and any single-byte modification of any stored
entry (a change inside exactly one stored field) makes verify report the first
invalid sequence number exactly at that entry — in particular at or before
it. -/
theorem audit_chain_integrity :
    (∀ cs : List AuditContent, verifyLedger (buildLedger cs) = none) ∧
    (∀ (cs : List AuditContent) (k : ℕ) (e' : AuditEntry),
      k < cs.length → oneFieldDiff ((buildLedger cs).getD k defaultEntry) e' →
      verifyLedger ((buildLedger cs).set k e') = some (k + 1)) := by
  constructor
  · intro cs
    unfold verifyLedger
    rw [buildLedger_eq]
    exact chainBuild_verify cs 0 1
  · intro cs k e' hk hd
    unfold verifyLedger
    rw [buildLedger_eq] at hd ⊢
    rw [chainBuild_tamper cs 0 1 k e' hk hd]
    congr 1
    omega

theorem audit_chain_integrity_witness :
    verifyLedger (buildLedger auditLog) = none ∧
    verifyLedger ((buildLedger auditLog).set 0 tamperedEntry) = some 1 :=
  ⟨audit_chain_integrity.1 auditLog,
   audit_chain_integrity.2 auditLog 0 tamperedEntry (by decide)
     (Or.inr (Or.inl ⟨rfl, by decide, rfl, rfl, rfl, rfl, rfl, rfl⟩))⟩

theorem merge_total_on_missing_witness :
    (merge defaultParams (agsGhost :: agsOverride)).diagnoses =
      (merge defaultParams agsOverride).diagnoses ∧
    (merge defaultParams (agsGhost :: agsOverride)).top_diagnosis =
      (merge defaultParams agsOverride).top_diagnosis ∧
    (merge defaultParams (agsGhost :: agsOverride)).confidence =
      (merge defaultParams agsOverride).confidence :=
  (merge_total_on_missing defaultParams).2 agsOverride agsGhost rfl rfl

end MADNX
